import Mathlib

/-
Shallow embedding of the ESP32 BLE Typist sketch, file src/pro(beta).cpp.

Modelling conventions:
- C machine integers are modelled as Int (all quantities the claims touch are
  small and far from any overflow boundary).
- The Arduino RNG is an oracle rng : Nat -> Nat consumed index by index.
  Arduino random(lo, hi) returns a value in [lo, hi-1] (the upper bound is
  exclusive) and returns lo without drawing from the generator when hi <= lo,
  matching the ESP32 Arduino core.
- The floating-point timing quantities (baseMs, drift correction, the
  log-normal sample, the jitter factor) only determine coopDelay durations;
  with the session left running they never influence which characters and
  backspaces are emitted.  The embedding therefore records the random draws
  that feed them (keeping the oracle consumption aligned with the source) but
  does not reproduce the float arithmetic.
- The traces below model a session that is neither stopped nor paused
  (typingActive stays true, paused stays false); pause/stop behaviour is
  modelled separately (coopDelayRun and the SysStep transition system).
-/

namespace Typist

/-- Arduino random(lo, hi) against the oracle rng: result in [lo, hi-1],
consuming one oracle index; when hi is not greater than lo the Arduino core
returns lo without drawing.  Returns (value, next oracle index). -/
def rand (rng : Nat → Nat) (lo hi : Int) (k : Nat) : Int × Nat :=
  if hi ≤ lo then (lo, k) else (lo + (rng k : Int) % (hi - lo), k + 1)

/-- clampInt from the sketch: if(v<a) return a; if(v>b) return b; return v. -/
def clampInt (v a b : Int) : Int :=
  if v < a then a else if b < v then b else v

/-- The alphanumeric test the typing loop performs on the current character:
(c>='a'&&c<='z')||(c>='A'&&c<='Z')||(c>='0'&&c<='9'). -/
def isAlnumC (c : Char) : Bool :=
  ('a' ≤ c && c ≤ 'z') || ('A' ≤ c && c ≤ 'Z') || ('0' ≤ c && c ≤ '9')

/-- The sentence-punctuation test of the typing loop:
c=='.'||c==','||c=='!'||c=='?'||c==';'||c==':'. -/
def isPunctC (c : Char) : Bool :=
  c == '.' || c == ',' || c == '!' || c == '?' || c == ';' || c == ':'

/-- C ctype isspace over ASCII: space, tab, line feed, vertical tab, form
feed, carriage return. -/
def isSpaceC (c : Char) : Bool :=
  c == ' ' || c == '\t' || c == '\n' || c == Char.ofNat 11 ||
    c == Char.ofNat 12 || c == '\r'

/-- C ctype isupper over ASCII. -/
def isUpperC (c : Char) : Bool := 'A' ≤ c && c ≤ 'Z'

/-- Body of the scanning loop of preprocessText: CR and LF are replaced by one
space each in mode 1 and dropped in mode 2; every other character passes
through. -/
def preprocessGo (nl : Int) : List Char → List Char
  | [] => []
  | c :: rest =>
    if c = '\r' ∨ c = '\n' then
      if nl = 1 then ' ' :: preprocessGo nl rest else preprocessGo nl rest
    else c :: preprocessGo nl rest

/-- preprocessText from the sketch (non-code-mode newline handling):
newlineMode 0 returns the input unchanged, otherwise the input is scanned by
preprocessGo. -/
def preprocessText (nl : Int) (l : List Char) : List Char :=
  if nl = 0 then l else preprocessGo nl l

theorem preprocessGo_one (l : List Char) :
    preprocessGo 1 l = l.map (fun c => if c = '\r' ∨ c = '\n' then ' ' else c) := by
  induction l with
  | nil => rfl
  | cons c rest ih =>
    by_cases h : c = '\r' ∨ c = '\n' <;> simp [preprocessGo, h, ih]

theorem preprocessGo_two (l : List Char) :
    preprocessGo 2 l = l.filter (fun c => !(c == '\r' || c == '\n')) := by
  induction l with
  | nil => rfl
  | cons c rest ih =>
    by_cases h : c = '\r' ∨ c = '\n'
    · rcases h with h | h <;> simp [preprocessGo, h, ih, List.filter]
    · push_neg at h
      have h1 : (c == '\r') = false := by simp [h.1]
      have h2 : (c == '\n') = false := by simp [h.2]
      simp [preprocessGo, h.1, h.2, ih, List.filter_cons, h1, h2]

/-- C7: in non-code mode, newlineMode=keep (0) returns the input unchanged;
newlineMode=space (1) replaces each CR and each LF, independently, with exactly
one space; newlineMode=remove (2) drops each CR and LF; all other characters
pass through in order; in particular "a\r\nb" under mode 1 becomes "a  b" with
two spaces. -/
theorem c7_preprocess_modes (l : List Char) :
    preprocessText 0 l = l ∧
    preprocessText 1 l = l.map (fun c => if c = '\r' ∨ c = '\n' then ' ' else c) ∧
    preprocessText 2 l = l.filter (fun c => !(c == '\r' || c == '\n')) ∧
    preprocessText 1 ['a', '\r', '\n', 'b'] = ['a', ' ', ' ', 'b'] := by
  refine ⟨rfl, ?_, ?_, by decide⟩
  · simp [preprocessText, preprocessGo_one]
  · simp [preprocessText, preprocessGo_two]

/-- One observable emission to the output sink: a printed character
(sendChar / bleKeyboard.print) or a backspace (sendBackspace). -/
inductive Ev
  | out (c : Char)
  | bs
deriving DecidableEq, Repr

/-- The runtime configuration globals the typing loop reads (defaults of the
sketch are not needed; handlers and the loop take the fields explicitly). -/
structure Config where
  configuredWPM : Int
  strictWPM : Bool
  jitterStrengthPct : Int
  thinkingSpaceChance : Int
  mistakePercent : Int
  enableTypos : Bool
  enableLongPauses : Bool
  longPausePercent : Int
  longPauseMinMs : Int
  longPauseMaxMs : Int
  newlineMode : Int
  extraPunctPause : Bool
  codeMode : Bool
  typoMaxChars : Int
  maxSimultaneousErrors : Int
  holdMinMs : Int
  holdMaxMs : Int
deriving DecidableEq, Repr

/-- createMistakeChunk from the sketch: len random letters, each drawn by
random(0,26) over the lowercase alphabet, and — only when the correct
character is uppercase — upcased when a further random(0,2) draw is nonzero.
Returns (decoy, next oracle index). -/
def createMistakeChunk (rng : Nat → Nat) (correct : Char) :
    Nat → Nat → List Char × Nat
  | 0, k => ([], k)
  | n + 1, k =>
    let r := rand rng 0 26 k
    let ch := Char.ofNat ('a'.toNat + r.1.toNat)
    let p : Char × Nat :=
      if isUpperC correct then
        let r2 := rand rng 0 2 r.2
        (if r2.1 ≠ 0 then ch.toUpper else ch, r2.2)
      else (ch, r.2)
    let rest := createMistakeChunk rng correct n p.2
    (p.1 :: rest.1, rest.2)

/-- sendCharsWithHold from the sketch, with the session running throughout:
each character of the sequence is emitted and followed by one hold draw
random(holdMin, holdMax+1). -/
def sendCharsWithHold (rng : Nat → Nat) (seq : List Char) (hMin hMax : Int)
    (k : Nat) : List Ev × Nat :=
  match seq with
  | [] => ([], k)
  | c :: rest =>
    let k2 := (rand rng hMin (hMax + 1) k).2
    let r := sendCharsWithHold rng rest hMin hMax k2
    (Ev.out c :: r.1, r.2)

/-- The backspace loop of a mistake chunk: len backspaces, each followed by a
coopDelay(random(20,60)) gap draw. -/
def bsLoop (rng : Nat → Nat) : Nat → Nat → List Ev × Nat
  | 0, k => ([], k)
  | n + 1, k =>
    let k2 := (rand rng 20 60 k).2
    let r := bsLoop rng n k2
    (Ev.bs :: r.1, r.2)

/-- The correction loop of a mistake chunk: the correct source characters are
re-emitted, each with one hold draw random(holdMinMs, holdMaxMs+1). -/
def correctionLoop (rng : Nat → Nat) (cs : List Char) (hMin hMax : Int)
    (k : Nat) : List Ev × Nat :=
  match cs with
  | [] => ([], k)
  | c :: rest =>
    let k2 := (rand rng hMin (hMax + 1) k).2
    let r := correctionLoop rng rest hMin hMax k2
    (Ev.out c :: r.1, r.2)

/-- The mistake-length computation of the typing loop:
len = clampInt(1 + random(0, typoMaxChars-1), 1, typoMaxChars), then clamped
to the remaining text length.  Returns (len, next oracle index). -/
def mistakeLen (rng : Nat → Nat) (m remaining : Int) (k : Nat) : Int × Nat :=
  let r := rand rng 0 (m - 1) k
  let len0 := clampInt (1 + r.1) 1 m
  (if remaining < len0 then remaining else len0, r.2)

/-- One full mistake chunk as the typing loop performs it at cursor i with
drawn length len: decoy generation, decoy emission with holds, len
backspaces with gap draws, then the len correct source characters with
holds. -/
def mistakeChunkTrace (rng : Nat → Nat) (text : List Char) (i len : Nat)
    (hMin hMax : Int) (c : Char) (k : Nat) : List Ev × Nat :=
  let w := createMistakeChunk rng c len k
  let e1 := sendCharsWithHold rng w.1 hMin hMax w.2
  let e2 := bsLoop rng len e1.2
  let e3 := correctionLoop rng ((text.drop i).take len) hMin hMax e2.2
  (e1.1 ++ (e2.1 ++ e3.1), e3.2)

/-- The three per-iteration timing draws of the loop: the two uniform draws
random(1,10001) feeding the Box-Muller gaussian of the log-normal sample, and
the jitter draw random(-1000,1001).  Their float results only scale coopDelay
durations; the embedding tracks the oracle consumption. -/
def timingDraws (rng : Nat → Nat) (k : Nat) : Nat :=
  (rand rng (-1000) 1001 ((rand rng 1 10001 ((rand rng 1 10001 k).2)).2)).2

/-- The optional long-pause draws before a space: when enabled and not strict,
random(0,100) is compared against longPausePercent and on success the pause
duration random(longPauseMinMs, longPauseMaxMs+1) is drawn. -/
def longPauseDraws (rng : Nat → Nat) (cfg : Config) (strict isSpace : Bool)
    (k : Nat) : Nat :=
  if !strict && cfg.enableLongPauses && isSpace then
    let r := rand rng 0 100 k
    if r.1 < cfg.longPausePercent then
      (rand rng cfg.longPauseMinMs (cfg.longPauseMaxMs + 1) r.2).2
    else r.2
  else k

/-- The mistake trigger of the loop:
(!strict) && enableTypos && (random(0,100) < mistakePercent) && alnum &&
(mistakesCurrently < maxSimultaneousErrors); the random draw is consumed
exactly when !strict && enableTypos (left-to-right short-circuit). -/
def mistakeDecision (rng : Nat → Nat) (cfg : Config) (strict alnum : Bool)
    (mistakes : Int) (k : Nat) : Bool × Nat :=
  if !strict && cfg.enableTypos then
    let r := rand rng 0 100 k
    (decide (r.1 < cfg.mistakePercent) && alnum &&
      decide (mistakes < cfg.maxSimultaneousErrors), r.2)
  else (false, k)

/-- The extra-pause draws of the plain-character branch: +random(40,140) for a
space, +random(80,220) for sentence punctuation when extraPunctPause,
+random(120,320) for a raw newline; all suppressed under strict. -/
def plainExtraDraws (rng : Nat → Nat) (cfg : Config) (strict : Bool) (c : Char)
    (k : Nat) : Nat :=
  if strict then k
  else
    let k1 := if c == ' ' then (rand rng 40 140 k).2 else k
    let k2 := if cfg.extraPunctPause && isPunctC c then (rand rng 80 220 k1).2 else k1
    if c == '\n' || c == '\r' then (rand rng 120 320 k2).2 else k2

/-- The optional thinking-pause draws after a space: when not strict and
thinkingSpaceChance>0, random(0,thinkingSpaceChance)==0 triggers a pause of
random(400,1000). -/
def thinkingDraws (rng : Nat → Nat) (cfg : Config) (strict isSpace : Bool)
    (k : Nat) : Nat :=
  if !strict && isSpace && decide (0 < cfg.thinkingSpaceChance) then
    let r := rand rng 0 cfg.thinkingSpaceChance k
    if r.1 = 0 then (rand rng 400 1000 r.2).2 else r.2
  else k

/-- The per-character loop of typeLikeHuman (non-code branch), for a session
that is never stopped or paused.  Arguments: fuel (structural bound; the
initial fuel text.length suffices since the cursor advances by at least one
per iteration), cursor i, mistakesCurrently, oracle index k, and the number s
of emissions so far (the index at which the connection oracle conn is
sampled).  cfgS j is the content of the volatile configuration globals while
iteration at cursor j runs; strict was latched into a local at session
start. -/
def typeLoop (rng : Nat → Nat) (conn : Nat → Bool) (cfgS : Nat → Config)
    (strict : Bool) (text : List Char) :
    Nat → Nat → Int → Nat → Nat → List Ev
  | 0, _, _, _, _ => []
  | fuel + 1, i, m, k, s =>
    if text.length ≤ i then []
    else if conn s = false then []
    else
      let cfg := cfgS i
      let c := text.getD i ' '
      let k1 := timingDraws rng k
      let k2 := longPauseDraws rng cfg strict (c == ' ') k1
      let td := mistakeDecision rng cfg strict (isAlnumC c) m k2
      if td.1 then
        let lr := mistakeLen rng cfg.typoMaxChars ((text.length : Int) - (i : Int)) td.2
        let len := lr.1.toNat
        let cr := mistakeChunkTrace rng text i len cfg.holdMinMs cfg.holdMaxMs c lr.2
        cr.1 ++ typeLoop rng conn cfgS strict text fuel (i + len) (m + 1) cr.2 (s + cr.1.length)
      else
        let k3 := plainExtraDraws rng cfg strict c td.2
        let k4 := (rand rng cfg.holdMinMs (cfg.holdMaxMs + 1) k3).2
        let k5 := thinkingDraws rng cfg strict (c == ' ') k4
        Ev.out c :: typeLoop rng conn cfgS strict text fuel (i + 1) m k5 (s + 1)

/-- typeLikeHuman (non-code branch) as an emission trace: the entry
isConnected check, the per-session speed-multiplier draw random(-10,11),
newline preprocessing, the empty-text early return, the session WPM offset
draw random(-2,3), then the character loop.  The configuration stream cfgS
gives the globals' content per cursor position; newlineMode and strictWPM are
read at session start (cfgS 0). -/
def typeTrace (rng : Nat → Nat) (conn : Nat → Bool) (cfgS : Nat → Config)
    (raw : List Char) : List Ev :=
  if conn 0 = false then []
  else
    let k0 := (rand rng (-10) 11 0).2
    let text := preprocessText (cfgS 0).newlineMode raw
    if text.length = 0 then []
    else
      let k1 := (rand rng (-2) 3 k0).2
      typeLoop rng conn cfgS (cfgS 0).strictWPM text text.length 0 0 k1 0

theorem createMistakeChunk_length (rng : Nat → Nat) (c : Char) :
    ∀ n k, ((createMistakeChunk rng c n k).1).length = n := by
  intro n
  induction n with
  | zero => intro k; rfl
  | succ n ih => intro k; simp [createMistakeChunk, ih]

theorem sendCharsWithHold_trace (rng : Nat → Nat) (hMin hMax : Int) :
    ∀ (seq : List Char) k, (sendCharsWithHold rng seq hMin hMax k).1 = seq.map Ev.out := by
  intro seq
  induction seq with
  | nil => intro k; rfl
  | cons c rest ih => intro k; simp [sendCharsWithHold, ih]

theorem bsLoop_trace (rng : Nat → Nat) :
    ∀ n k, (bsLoop rng n k).1 = List.replicate n Ev.bs := by
  intro n
  induction n with
  | zero => intro k; rfl
  | succ n ih => intro k; simp [bsLoop, ih, List.replicate_succ]

theorem correctionLoop_trace (rng : Nat → Nat) (hMin hMax : Int) :
    ∀ (cs : List Char) k, (correctionLoop rng cs hMin hMax k).1 = cs.map Ev.out := by
  intro cs
  induction cs with
  | nil => intro k; rfl
  | cons c rest ih => intro k; simp [correctionLoop, ih]

theorem mistakeChunkTrace_eq (rng : Nat → Nat) (text : List Char) (i len : Nat)
    (hMin hMax : Int) (c : Char) (k : Nat) :
    (mistakeChunkTrace rng text i len hMin hMax c k).1 =
      ((createMistakeChunk rng c len k).1).map Ev.out ++
        (List.replicate len Ev.bs ++ ((text.drop i).take len).map Ev.out) := by
  simp [mistakeChunkTrace, sendCharsWithHold_trace, bsLoop_trace, correctionLoop_trace]

theorem count_bs_map_out (cs : List Char) : List.count Ev.bs (cs.map Ev.out) = 0 := by
  rw [List.count_eq_zero]
  simp

/-- C2: for every mistake chunk at every cursor position i and every drawn
length len (clamped so that i + len fits the text), the chunk emits the decoy,
then exactly as many backspaces as the decoy has characters, then exactly that
many correct source characters; the backspace count equals the decoy length. -/
theorem c2_mistake_roundtrip (rng : Nat → Nat) (text : List Char) (i len : Nat)
    (hMin hMax : Int) (ch : Char) (k : Nat) (h : i + len ≤ text.length) :
    ((createMistakeChunk rng ch len k).1).length = len ∧
    (mistakeChunkTrace rng text i len hMin hMax ch k).1 =
      ((createMistakeChunk rng ch len k).1).map Ev.out ++
        (List.replicate len Ev.bs ++ ((text.drop i).take len).map Ev.out) ∧
    List.count Ev.bs (mistakeChunkTrace rng text i len hMin hMax ch k).1 =
      ((createMistakeChunk rng ch len k).1).length ∧
    ((text.drop i).take len).length = ((createMistakeChunk rng ch len k).1).length := by
  have hlen := createMistakeChunk_length rng ch len k
  refine ⟨hlen, mistakeChunkTrace_eq rng text i len hMin hMax ch k, ?_, ?_⟩
  · rw [mistakeChunkTrace_eq, List.count_append, List.count_append,
      count_bs_map_out, count_bs_map_out, List.count_replicate_self, hlen]
    omega
  · rw [hlen]
    simp
    omega

/-- Closed witness for c2_mistake_roundtrip at text "abc", i = 0, len = 2. -/
theorem c2_mistake_roundtrip_w :
    0 + 2 ≤ (['a', 'b', 'c'] : List Char).length ∧
    ((createMistakeChunk (fun _ => 0) 'a' 2 0).1).length = 2 ∧
    List.count Ev.bs (mistakeChunkTrace (fun _ => 0) ['a', 'b', 'c'] 0 2 18 100 'a' 0).1 =
      ((createMistakeChunk (fun _ => 0) 'a' 2 0).1).length :=
  ⟨by decide,
   (c2_mistake_roundtrip (fun _ => 0) ['a', 'b', 'c'] 0 2 18 100 'a' 0 (by decide)).1,
   (c2_mistake_roundtrip (fun _ => 0) ['a', 'b', 'c'] 0 2 18 100 'a' 0 (by decide)).2.2.1⟩

/-- C5: the mistake-length draw uses random(0, typoMaxChars-1), whose upper
bound is exclusive in the Arduino core, so for typoMaxChars = 2 the drawn
length is always 1 (the value 2 is unattainable for every random draw, with 10
characters remaining), and for typoMaxChars = 6 the length never exceeds 5 —
the draw is uniform over [1, typoMaxChars-1], not [1, typoMaxChars] as the
claim and the sketch's own comment (1..typoMaxChars) state. -/
theorem c5_len_draw_off_by_one (rng : Nat → Nat) (k : Nat) (remaining : Int) :
    (mistakeLen rng 2 10 k).1 = 1 ∧ (mistakeLen rng 6 remaining k).1 ≤ 5 := by
  constructor
  · simp [mistakeLen, rand, clampInt, Int.emod_one]
  · have h0 : (0 : Int) ≤ (rng k : Int) % 5 := Int.emod_nonneg _ (by norm_num)
    have h5 : (rng k : Int) % 5 < 5 := Int.emod_lt_of_pos _ (by norm_num)
    simp only [mistakeLen, rand, clampInt]
    norm_num
    split <;> omega

/-- The sketch's default configuration (the initial values of the runtime
globals). -/
def cfgDefaults : Config :=
  { configuredWPM := 100, strictWPM := false, jitterStrengthPct := 12,
    thinkingSpaceChance := 0, mistakePercent := 3, enableTypos := true,
    enableLongPauses := true, longPausePercent := 5, longPauseMinMs := 600,
    longPauseMaxMs := 1200, newlineMode := 1, extraPunctPause := true,
    codeMode := false, typoMaxChars := 1, maxSimultaneousErrors := 1,
    holdMinMs := 18, holdMaxMs := 100 }

/-- Defaults with the per-character mistake chance set to 0. -/
def cfgNoMistakes : Config := { cfgDefaults with mistakePercent := 0 }

/-- Defaults with the per-character mistake chance set to 100. -/
def cfgAllMistakes : Config := { cfgDefaults with mistakePercent := 100 }

/-- A session during which the configuration never changes. -/
def cfgStreamConst : Nat → Config := fun _ => cfgNoMistakes

/-- A session that starts under cfgNoMistakes and receives a configuration
update (mistakePercent 0 -> 100) once the cursor has passed the first
character. -/
def cfgStreamUpdated : Nat → Config :=
  fun j => if j = 0 then cfgNoMistakes else cfgAllMistakes

/-- C1 counterexample: two sessions over the text "ab" with identical RNG,
identical connection state and identical configuration at session start; in
one of them mistakePercent is updated from 0 to 100 after the first character.
The claim says the traces are identical; they differ (the updated session
injects a mistake chunk at the second character). -/
theorem c1_cex :
    cfgStreamUpdated 0 = cfgStreamConst 0 ∧
    typeTrace (fun _ => 0) (fun _ => true) cfgStreamUpdated ['a', 'b'] ≠
      typeTrace (fun _ => 0) (fun _ => true) cfgStreamConst ['a', 'b'] := by
  exact ⟨rfl, by decide⟩

/-- C1 (amended): only strictPace is latched at session start (together with
the WPM/jitter values feeding the float base delay); the mistake, pause and
hold parameters are read live from the globals at each loop iteration, so the
behaviour from cursor position i onward depends only on the configuration in
effect from position i onward — a ConfigUpdateRequest processed mid-session
takes effect at the very next character, not at the next session. -/
theorem c1_live_config (rng : Nat → Nat) (conn : Nat → Bool)
    (cfgA cfgB : Nat → Config) (strict : Bool) (text : List Char) :
    ∀ fuel i m k s, (∀ j, i ≤ j → cfgA j = cfgB j) →
      typeLoop rng conn cfgA strict text fuel i m k s =
        typeLoop rng conn cfgB strict text fuel i m k s := by
  intro fuel
  induction fuel with
  | zero => intro i m k s h; rfl
  | succ fuel ih =>
    intro i m k s h
    simp only [typeLoop]
    rw [h i (le_refl i)]
    split
    · rfl
    · split
      · rfl
      · split
        · congr 1
          exact ih _ _ _ _ (fun j hj => h j (le_trans (Nat.le_add_right i _) hj))
        · congr 1
          exact ih _ _ _ _ (fun j hj => h j (le_trans (Nat.le_succ i) hj))

/-- Closed witness for c1_live_config: a configuration stream that differed
from the constant stream only before position 1 yields the same behaviour
from position 1 onward. -/
theorem c1_live_config_w :
    typeLoop (fun _ => 0) (fun _ => true)
        (fun j => if j = 0 then cfgAllMistakes else cfgNoMistakes) false
        ['a', 'b'] 2 1 0 0 1 =
      typeLoop (fun _ => 0) (fun _ => true) (fun _ => cfgNoMistakes) false
        ['a', 'b'] 2 1 0 0 1 :=
  c1_live_config (fun _ => 0) (fun _ => true)
    (fun j => if j = 0 then cfgAllMistakes else cfgNoMistakes)
    (fun _ => cfgNoMistakes) false ['a', 'b'] 2 1 0 0 1
    (fun j hj => by
      have hne : j ≠ 0 := Nat.one_le_iff_ne_zero.mp hj
      simp [hne])

/-- Whether some event of a trace was emitted at an instant where the
connection oracle reported disconnected (event number j of the trace is
emitted at connection instant j, the instant the loop's checks also sample). -/
def emittedWhileDisconnected (conn : Nat → Bool) (tr : List Ev) : Bool :=
  (List.range tr.length).any fun j => !(conn j)

/-- C8 counterexample: with every alphanumeric character triggering a mistake,
a sink that is connected at the iteration-top check (instant 0) but
disconnected from instant 1 onward still receives the rest of the mistake
chunk: the backspace at instant 1 and the correction character at instant 2
are emitted while isConnected() is false, because the chunk's inner loops
check only typingActive, not the connection. -/
theorem c8_cex :
    typeTrace (fun _ => 0) (fun s => decide (s = 0)) (fun _ => cfgAllMistakes)
        ['a', 'b'] = [Ev.out 'a', Ev.bs, Ev.out 'a'] ∧
    emittedWhileDisconnected (fun s => decide (s = 0))
      (typeTrace (fun _ => 0) (fun s => decide (s = 0)) (fun _ => cfgAllMistakes)
        ['a', 'b']) = true := by
  exact ⟨by decide, by decide⟩

/-- C8 (amended): the connection is checked once at session entry and once at
the top of each loop iteration — before each plain character or mistake chunk
— and a failed check is fatal: no event at all is emitted from that check
onward.  Emissions inside a mistake chunk are not individually guarded, so a
mid-chunk disconnect does not stop the chunk (see the counterexample). -/
theorem c8_check_fatal (rng : Nat → Nat) (conn : Nat → Bool)
    (cfgS : Nat → Config) (strict : Bool) (text : List Char) :
    (∀ fuel i m k s, conn s = false →
      typeLoop rng conn cfgS strict text fuel i m k s = []) ∧
    (conn 0 = false → typeTrace rng conn cfgS text = []) := by
  constructor
  · intro fuel i m k s h
    cases fuel with
    | zero => rfl
    | succ fuel => simp [typeLoop, h]
  · intro h
    simp [typeTrace, h]

/-- Closed witness for c8_check_fatal: with the sink disconnected throughout,
no event is emitted. -/
theorem c8_check_fatal_w :
    typeLoop (fun _ => 0) (fun _ => false) (fun _ => cfgDefaults) false
        ['a'] 1 0 0 0 0 = [] ∧
    typeTrace (fun _ => 0) (fun _ => false) (fun _ => cfgDefaults) ['a'] = [] :=
  ⟨(c8_check_fatal (fun _ => 0) (fun _ => false) (fun _ => cfgDefaults) false
      ['a']).1 1 0 0 0 0 rfl,
   (c8_check_fatal (fun _ => 0) (fun _ => false) (fun _ => cfgDefaults) false
      ['a']).2 rfl⟩

/-- Number of maximal runs of consecutive backspaces in a trace; since every
mistake chunk emits a nonempty backspace run framed by printed characters
(nonempty decoy before, nonempty correction after) and nothing else emits a
backspace, this counts the mistake chunks of a trace.  The flag records
whether the previous event was a backspace. -/
def bsRuns (inRun : Bool) : List Ev → Nat
  | [] => 0
  | Ev.bs :: rest => (if inRun then 0 else 1) + bsRuns true rest
  | Ev.out _ :: rest => bsRuns false rest

theorem bsRuns_map_out (xs : List Char) (hx : xs ≠ []) (b : Bool) (l : List Ev) :
    bsRuns b (xs.map Ev.out ++ l) = bsRuns false l := by
  induction xs generalizing b with
  | nil => cases hx rfl
  | cons x xs ih =>
    cases xs with
    | nil => simp [bsRuns]
    | cons y ys =>
      simp only [List.map_cons, List.cons_append, bsRuns]
      exact ih (by simp) false

theorem bsRuns_replicate_true (n : Nat) (l : List Ev) :
    bsRuns true (List.replicate n Ev.bs ++ l) = bsRuns true l := by
  induction n with
  | zero => simp
  | succ n ih => simp [List.replicate_succ, bsRuns, ih]

theorem bsRuns_replicate_false (n : Nat) (hn : n ≠ 0) (l : List Ev) :
    bsRuns false (List.replicate n Ev.bs ++ l) = 1 + bsRuns true l := by
  cases n with
  | zero => cases hn rfl
  | succ n => simp [List.replicate_succ, bsRuns, bsRuns_replicate_true]

/-- C4 (amended): mistakesCurrently is incremented when a chunk completes and
is never decremented, so it is not an in-flight count: with the
maxSimultaneousErrors configuration bounded by cap throughout the session, the
whole remaining trace contains at most cap - m mistake chunks when the counter
already holds m — the cap bounds the total number of mistake chunks per
session, and once it is reached no later character ever triggers a mistake
again. -/
theorem c4_total_cap (rng : Nat → Nat) (conn : Nat → Bool) (cfgS : Nat → Config)
    (strict : Bool) (text : List Char) (cap : Int)
    (hc : ∀ j, (cfgS j).maxSimultaneousErrors ≤ cap) :
    ∀ fuel i m k s b,
      bsRuns b (typeLoop rng conn cfgS strict text fuel i m k s) ≤ (cap - m).toNat := by
  intro fuel
  induction fuel with
  | zero => intro i m k s b; simp [typeLoop, bsRuns]
  | succ fuel ih =>
    intro i m k s b
    simp only [typeLoop]
    split
    · simp [bsRuns]
    · split
      · simp [bsRuns]
      · split
        · -- mistake-chunk branch: the trigger requires m < maxSimultaneousErrors
          rename_i hi hconn htd
          have hm : m < (cfgS i).maxSimultaneousErrors := by
            revert htd
            simp only [mistakeDecision]
            split
            · intro htd
              simp only [Prod.fst] at htd
              have := (Bool.and_eq_true _ _).mp htd
              exact of_decide_eq_true this.2
            · intro htd
              simp at htd
          have hmc : m < cap := lt_of_lt_of_le hm (hc i)
          rw [mistakeChunkTrace_eq]
          set k2 := (mistakeDecision rng (cfgS i) strict (isAlnumC (text.getD i ' ')) m
            (longPauseDraws rng (cfgS i) strict (text.getD i ' ' == ' ')
              (timingDraws rng k))).2 with hk2
          set len := ((mistakeLen rng (cfgS i).typoMaxChars
            ((text.length : Int) - (i : Int)) k2).1).toNat with hlen
          set k3 := (mistakeLen rng (cfgS i).typoMaxChars
            ((text.length : Int) - (i : Int)) k2).2 with hk3
          rcases Nat.eq_zero_or_pos len with h0 | hpos
          · rw [h0]
            have hw : (createMistakeChunk rng (text.getD i ' ') 0 k3).1 = [] :=
              List.length_eq_zero.mp (createMistakeChunk_length rng (text.getD i ' ') 0 k3)
            simp only [hw, List.map_nil, List.replicate_zero, List.take_zero,
              List.nil_append]
            calc bsRuns b _ ≤ (cap - (m + 1)).toNat := ih _ _ _ _ _
              _ ≤ (cap - m).toNat := by omega
          · have hw : ((createMistakeChunk rng (text.getD i ' ') len k3).1) ≠ [] := by
              intro hnil
              have hl := createMistakeChunk_length rng (text.getD i ' ') len k3
              rw [hnil] at hl
              simp at hl
              omega
            have hcs : ((text.drop i).take len) ≠ [] := by
              have hlt : i < text.length := by omega
              intro hnil
              have hl := congrArg List.length hnil
              simp at hl
              omega
            rw [List.append_assoc, bsRuns_map_out _ hw, List.append_assoc,
              bsRuns_replicate_false len (by omega),
              bsRuns_map_out _ hcs]
            exact le_trans (Nat.add_le_add_left (ih _ _ _ _ _) 1) (by omega)
        · simp only [bsRuns]
          exact ih _ _ _ _ _

/-- C4 counterexample: text "ab" with mistakePercent = 100 (so both characters
are eligible to trigger), maxSimultaneousErrors = 1, constant connection and
RNG.  The first character's chunk completes (decoy 'a', one backspace, correct
'a') before the second character is processed, yet the second character emits
no chunk: the counter was never released, so only one backspace run appears
in the whole trace. -/
theorem c4_cex :
    typeTrace (fun _ => 0) (fun _ => true) (fun _ => cfgAllMistakes) ['a', 'b'] =
      [Ev.out 'a', Ev.bs, Ev.out 'a', Ev.out 'b'] ∧
    bsRuns false
      (typeTrace (fun _ => 0) (fun _ => true) (fun _ => cfgAllMistakes)
        ['a', 'b']) = 1 := by
  exact ⟨by decide, by decide⟩

/-- Closed witness for c4_total_cap at the defaults (cap 1): the trace holds
at most one mistake chunk. -/
theorem c4_total_cap_w :
    bsRuns false
      (typeLoop (fun _ => 0) (fun _ => true) (fun _ => cfgAllMistakes) false
        ['a', 'b'] 2 0 0 2 0) ≤ (1 - (0 : Int)).toNat :=
  c4_total_cap (fun _ => 0) (fun _ => true) (fun _ => cfgAllMistakes) false
    ['a', 'b'] 1 (fun _ => le_refl 1) 2 0 0 2 0 false

/-- The code-mode preprocessing scan of typeLikeHuman: one left-to-right pass
with a start-of-line flag.  A CR (absorbing an immediately following LF) and a
LF each append one normalized LF and set the flag; any other character is
dropped when the flag is set and the character is whitespace, and is otherwise
appended, clearing the flag. -/
def codeModeFilter : Bool → List Char → List Char
  | _, [] => []
  | _, '\r' :: '\n' :: rest => '\n' :: codeModeFilter true rest
  | _, '\r' :: rest => '\n' :: codeModeFilter true rest
  | _, '\n' :: rest => '\n' :: codeModeFilter true rest
  | sol, c :: rest =>
    if sol && isSpaceC c then codeModeFilter true rest
    else c :: codeModeFilter false rest

/-- Modelled from the spec's description of code mode, first stage: normalize
each CRLF pair and each lone CR to a single line feed. -/
def normalizeNewlines : List Char → List Char
  | [] => []
  | '\r' :: '\n' :: rest => '\n' :: normalizeNewlines rest
  | '\r' :: rest => '\n' :: normalizeNewlines rest
  | c :: rest => c :: normalizeNewlines rest

/-- Modelled from the spec's description of code mode, second stage: drop
whitespace while a start-of-line flag is set; the flag is set initially and
after each line feed and is cleared by the first non-whitespace character of
a line. -/
def stripLeadingWs : Bool → List Char → List Char
  | _, [] => []
  | _, '\n' :: rest => '\n' :: stripLeadingWs true rest
  | sol, c :: rest =>
    if sol && isSpaceC c then stripLeadingWs true rest
    else c :: stripLeadingWs false rest

/-- The effective preprocessing of typeLikeHuman: the non-code pipeline uses
preprocessText with the configured newlineMode; code mode uses the
codeModeFilter scan, which never consults newlineMode. -/
def effectiveText (cfg : Config) (raw : List Char) : List Char :=
  if cfg.codeMode then codeModeFilter true raw
  else preprocessText cfg.newlineMode raw

/-- Checks that no whitespace character other than a line feed stands at
position 0 or immediately after a line feed; the flag records whether the
previous character was a line feed (true at the start). -/
def wsOk (afterNl : Bool) : List Char → Bool
  | [] => true
  | c :: rest => (!afterNl || !(isSpaceC c) || (c == '\n')) && wsOk (c == '\n') rest

/-- The claim's stronger reading: no whitespace character at all (line feeds
included) at position 0 or immediately after a line feed. -/
def wsOkStrict (afterNl : Bool) : List Char → Bool
  | [] => true
  | c :: rest => (!afterNl || !(isSpaceC c)) && wsOkStrict (c == '\n') rest

theorem codeModeFilter_eq_spec (sol : Bool) (l : List Char) :
    codeModeFilter sol l = stripLeadingWs sol (normalizeNewlines l) := by
  induction sol, l using codeModeFilter.induct with
  | case1 => rfl
  | case2 sol rest ih =>
    simp [codeModeFilter, normalizeNewlines, stripLeadingWs, ih]
  | case3 sol rest hne ih =>
    cases rest with
    | nil => simp [codeModeFilter, normalizeNewlines, stripLeadingWs]
    | cons c2 r2 =>
      have hc2 : ¬(c2 = '\n') := fun h => hne r2 (by rw [h])
      simp [codeModeFilter, normalizeNewlines, stripLeadingWs, hc2, ih]
  | case4 sol rest ih =>
    simp [codeModeFilter, normalizeNewlines, stripLeadingWs, ih]
  | case5 sol c rest hrn hr hn h ih =>
    have hr2 : ¬(c = '\r') := hr
    have hn2 : ¬(c = '\n') := hn
    simp [codeModeFilter, normalizeNewlines, stripLeadingWs, hr2, hn2, h, ih]
  | case6 sol c rest hrn hr hn h ih =>
    have hr2 : ¬(c = '\r') := hr
    have hn2 : ¬(c = '\n') := hn
    simp [codeModeFilter, normalizeNewlines, stripLeadingWs, hr2, hn2, h, ih]

theorem wsOk_codeModeFilter (sol : Bool) (l : List Char) :
    wsOk sol (codeModeFilter sol l) = true := by
  induction sol, l using codeModeFilter.induct with
  | case1 => rfl
  | case2 sol rest ih => simp [codeModeFilter, wsOk, ih]
  | case3 sol rest hne ih => simp [codeModeFilter, wsOk, ih]
  | case4 sol rest ih => simp [codeModeFilter, wsOk, ih]
  | case5 sol c rest hrn hr hn h ih =>
    have hsol : sol = true := by
      cases sol
      · simp at h
      · rfl
    simp only [codeModeFilter, h, if_pos]
    rw [hsol]
    exact ih
  | case6 sol c rest hrn hr hn h ih =>
    have hn2 : (c == '\n') = false := by
      simp
      exact hn
    simp only [codeModeFilter, h, if_neg, wsOk, hn2, Bool.and_eq_true]
    refine ⟨?_, ih⟩
    cases sol
    · simp
    · simp at h
      simp [h]

/-- C6 counterexample: the input "a\n\nb" (an empty second line) passes
code-mode preprocessing unchanged, and its output has the whitespace
character LF at position 2, immediately after the line feed at position 1 —
so the claimed property that the output has no whitespace at position 0 or
immediately after a line feed fails on the code (C isspace counts a line
feed as whitespace). -/
theorem c6_cex :
    codeModeFilter true ['a', '\n', '\n', 'b'] = ['a', '\n', '\n', 'b'] ∧
    isSpaceC '\n' = true ∧
    wsOkStrict true (codeModeFilter true ['a', '\n', '\n', 'b']) = false := by
  exact ⟨by decide, by decide, by decide⟩

/-- C6 (amended): code-mode preprocessing equals normalizing CRLF and lone CR
to a single line feed followed by the start-of-line whitespace strip, its
output contains no whitespace character other than a line feed at position 0
or immediately after a line feed (empty lines keep their line feed), and code
mode never consults the configured newlineMode. -/
theorem c6_codemode (l : List Char) (cfg : Config) :
    codeModeFilter true l = stripLeadingWs true (normalizeNewlines l) ∧
    wsOk true (codeModeFilter true l) = true ∧
    effectiveText { cfg with codeMode := true } l = codeModeFilter true l :=
  ⟨codeModeFilter_eq_spec true l, wsOk_codeModeFilter true l, rfl⟩

/-- The inner pause loop of coopDelay with the session running: while the
paused flag holds, service HTTP and delay(1); each delay(1) advances the
millisecond clock by one.  The schedule pausedAt gives the paused flag at
each millisecond; fuel bounds the modelled run (none when exhausted). -/
def pauseSpin (pausedAt : Nat → Bool) : Nat → Nat → Option Nat
  | 0, t => if pausedAt t then none else some t
  | f + 1, t => if pausedAt t then pauseSpin pausedAt f (t + 1) else some t

/-- coopDelay(ms) entered at millisecond start, with the session running
throughout (typingActive stays true): the outer loop exits as soon as
millis() - start >= ms at the top of an iteration; otherwise it services
HTTP, sits in the inner pause loop while paused, then delay(1).  The start
timestamp is never adjusted, exactly as in the source.  Returns the exit
time. -/
def coopDelayRun (pausedAt : Nat → Bool) : Nat → Nat → Nat → Nat → Option Nat
  | 0, t, start, ms => if ms ≤ t - start then some t else none
  | f + 1, t, start, ms =>
    if ms ≤ t - start then some t
    else
      match pauseSpin pausedAt (f + 1) t with
      | none => none
      | some t2 => coopDelayRun pausedAt f (t2 + 1) start ms

/-- C3: coopDelay compares millis() - start against the requested duration
without ever adjusting start while paused, so paused time does count against
the wait.  A 100 ms coopDelay entered at t = 0 with the session paused during
[0, 200) exits at t = 201 — after roughly 1 ms of unpaused waiting — instead
of at t >= 300 (100 ms of counted-down waiting plus 200 ms of pause) as the
claim and the source's own comment describe; the unpaused baseline exits at
t = 100.  The same unadjusted clock (millis() - startMs) feeds the elapsed
time used by drift correction. -/
theorem c3_pause_counts_against_wait :
    coopDelayRun (fun t => decide (t < 200)) 400 0 0 100 = some 201 ∧
    coopDelayRun (fun _ => false) 400 0 0 100 = some 100 ∧
    201 < 100 + 200 := by
  exact ⟨by decide, by decide, by decide⟩

/-- The server state the request handlers read and write: the session flags,
the emitted-character counter and the configuration globals. -/
structure SrvState where
  typingActive : Bool
  paused : Bool
  cfg : Config
  typedChars : Nat
deriving DecidableEq, Repr

/-- The state left behind by the synchronous typeLikeHuman call of an
accepted StartRequest, for a session that is never stopped, paused or
disconnected: empty preprocessed text returns without starting; otherwise
the session runs to completion, clearing both flags and leaving the emitted
count at the preprocessed length. -/
def afterSession (st : SrvState) (body : List Char) : SrvState :=
  let text := effectiveText st.cfg body
  if text.length = 0 then { st with paused := false }
  else { st with typingActive := false, paused := false, typedChars := text.length }

/-- handleType from the sketch: 409 Busy while a session is active, then 400
for an empty body, then 503 when the sink is disconnected, else 200 and the
session runs synchronously. -/
def handleType (st : SrvState) (connected : Bool) (body : List Char) :
    Nat × SrvState :=
  if st.typingActive then (409, st)
  else if body.length = 0 then (400, st)
  else if !connected then (503, st)
  else (200, afterSession { st with paused := false } body)

/-- The idle server state with the default configuration. -/
def srvIdle : SrvState :=
  { typingActive := false, paused := false, cfg := cfgDefaults, typedChars := 0 }

/-- C9 counterexample: no session active, sink disconnected, body empty —
both the ServiceUnavailable and the BadRequest causes hold, and handleType
answers 400 BadRequest, not 503 ServiceUnavailable: the code checks the empty
body before the connection, so the claimed precedence Busy over
ServiceUnavailable over BadRequest fails. -/
theorem c9_cex :
    (handleType srvIdle false []).1 = 400 ∧
    (handleType srvIdle false []).1 ≠ 503 := by
  exact ⟨rfl, by decide⟩

/-- C9 (amended): the rejection precedence is Busy (409), then BadRequest
(400, empty text), then ServiceUnavailable (503, sink disconnected); every
rejection is synchronous and leaves the whole server state — session flags,
counter and configuration — unchanged. -/
theorem c9_reject_order (st : SrvState) (connected : Bool) (body : List Char) :
    (handleType st connected body).1 =
      (if st.typingActive then 409
       else if body.length = 0 then 400
       else if !connected then 503 else 200) ∧
    ((handleType st connected body).1 ≠ 200 → (handleType st connected body).2 = st) := by
  constructor
  · by_cases h1 : st.typingActive <;> by_cases h2 : body.length = 0 <;>
      by_cases h3 : connected <;> simp [handleType, h1, h2, h3]
  · intro h
    by_cases h1 : st.typingActive
    · simp [handleType, h1]
    · by_cases h2 : body.length = 0
      · simp [handleType, h1, h2]
      · by_cases h3 : connected
        · exfalso
          apply h
          simp [handleType, h1, h2, h3]
        · simp [handleType, h1, h2, h3]

/-- Closed witness for c9_reject_order: a Busy rejection leaves the state
unchanged. -/
theorem c9_reject_order_w :
    (handleType { srvIdle with typingActive := true } true ['a']).2 =
      { srvIdle with typingActive := true } :=
  (c9_reject_order { srvIdle with typingActive := true } true ['a']).2 (by decide)

/-- The (typingActive, paused) flags the handlers and the session mutate. -/
structure Sys where
  typingActive : Bool
  paused : Bool
deriving DecidableEq, Repr

/-- Boot state: both flags false. -/
def sysInit : Sys := ⟨false, false⟩

/-- The atomic writes to the two flags, one constructor per handler body or
per write block of typeLikeHuman (each runs without an intervening HTTP
yield): handlePause toggles paused only while a session is active and is
rejected otherwise; handleStop clears both flags; an accepted handleType
clears paused before the session starts; the session-start block sets
typingActive and clears paused; every session exit path (cursor exhaustion,
stop, transport failure) runs the end block clearing both flags; the
remaining handlers leave the flags alone. -/
inductive SysStep : Sys → Sys → Prop
  | pauseToggle (s : Sys) (h : s.typingActive = true) : SysStep s ⟨true, !s.paused⟩
  | pauseReject (s : Sys) (h : s.typingActive = false) : SysStep s s
  | stopReq (s : Sys) : SysStep s ⟨false, false⟩
  | typeAccept (s : Sys) (h : s.typingActive = false) : SysStep s ⟨false, false⟩
  | sessionBegin (s : Sys) : SysStep s ⟨true, false⟩
  | sessionEnd (s : Sys) : SysStep s ⟨false, false⟩
  | configOrStatus (s : Sys) : SysStep s s

/-- States reachable from boot through handler and session writes. -/
def SysReachable (s : Sys) : Prop := Relation.ReflTransGen SysStep sysInit s

/-- C10: in every reachable state, paused implies typingActive — the paused
flag can only be set by the pause toggle while a session is active, and every
path that ends a session clears it, so no session starts paused and no paused
flag survives its session. -/
theorem c10_paused_implies_active (s : Sys) (h : SysReachable s)
    (hp : s.paused = true) : s.typingActive = true := by
  induction h with
  | refl => exact absurd hp (by decide)
  | tail hab hstep ih =>
    cases hstep with
    | pauseToggle hb => rfl
    | pauseReject hb => exact ih hp
    | stopReq => exact absurd hp (by decide)
    | typeAccept hb => exact absurd hp (by decide)
    | sessionBegin => rfl
    | sessionEnd => exact absurd hp (by decide)
    | configOrStatus => exact ih hp

/-- Closed witness for c10_paused_implies_active at the state reached by
starting a session and then toggling pause. -/
theorem c10_paused_implies_active_w :
    SysReachable ⟨true, true⟩ ∧ (⟨true, true⟩ : Sys).typingActive = true := by
  have hr : SysReachable ⟨true, true⟩ :=
    Relation.ReflTransGen.tail
      (Relation.ReflTransGen.single (SysStep.sessionBegin sysInit))
      (SysStep.pauseToggle ⟨true, false⟩ rfl)
  exact ⟨hr, c10_paused_implies_active ⟨true, true⟩ hr rfl⟩

end Typist
